import Mathlib

/- Verification development for the morti voice-assistant core.

   Embedded source (shallow embedding, translated directly from the code):
   - src/lib/workers/ai.worker.js : ModelManager.switchPipeline (resource
     arbiter), the hallucination filter of handleTranscribe, handleSpeak;
   - src/lib/workers/tts.utils.js : UnicodeProcessor.call, preprocessText,
     lengthToMask / getTextMask / getLatentMask, sampleNoisyLatent, and the
     final waveform truncation of generateSupertonicSpeech;
   - src/lib/mutex.js and src/hooks/useAssistant.js : the mutual-exclusion
     lock and the entry guard of processAudio.

   Modelling conventions: JavaScript strings are lists of characters
   (code points; no claim depends on astral surrogate pairs), JavaScript
   numbers are rationals (exact in the regimes the claims are decided in),
   the unspecified random source of Math.random-driven noise is an oracle
   parameter, fallible operations return Except values, and the worker's
   observable actions (dispose/setup calls, posted messages, status
   transitions) are explicit event traces. -/

namespace Morti

/-! ### JavaScript string helpers -/

/-- Core whitespace set of the JS `\s` class and `String.trim` (ASCII
    subset; no claim depends on exotic Unicode spaces). -/
def isWs (c : Char) : Bool :=
  c == ' ' || c == '\t' || c == '\n' || c == '\r' ||
    c == Char.ofNat 11 || c == Char.ofNat 12

/-- JS `String.prototype.trim`: strip whitespace from both ends. -/
def jsTrim (s : List Char) : List Char :=
  ((s.dropWhile isWs).reverse.dropWhile isWs).reverse

/-- Whether `pat` occurs at the very start of `s`. -/
def leadsWith : List Char → List Char → Bool
  | [], _ => true
  | _ :: _, [] => false
  | p :: ps, c :: cs => p == c && leadsWith ps cs

/-- Find the first occurrence of `pat` in `s`; return the part before it and
    the part after it.  This is the primitive behind both the global regex
    replace of `handleSpeak` and `String.prototype.includes`. -/
def splitFirst (pat : List Char) : List Char → Option (List Char × List Char)
  | [] => if leadsWith pat [] then some ([], []) else none
  | c :: rest =>
      if leadsWith pat (c :: rest) then some ([], (c :: rest).drop pat.length)
      else
        match splitFirst pat rest with
        | some (a, b) => some (c :: a, b)
        | none => none

/-- JS `String.prototype.includes`. -/
def strIncludes (pat s : List Char) : Bool :=
  (splitFirst pat s).isSome

theorem leadsWith_length {pat s : List Char} (h : leadsWith pat s = true) :
    pat.length ≤ s.length := by
  induction pat generalizing s with
  | nil => exact Nat.zero_le _
  | cons p ps ih =>
      cases s with
      | nil => simp [leadsWith] at h
      | cons c cs =>
          simp only [leadsWith, Bool.and_eq_true] at h
          simpa using Nat.succ_le_succ (ih h.2)

theorem splitFirst_length {pat s a b : List Char}
    (h : splitFirst pat s = some (a, b)) :
    a.length + pat.length + b.length = s.length := by
  induction s generalizing a b with
  | nil =>
      unfold splitFirst at h
      by_cases hl : leadsWith pat [] = true
      · have hle : pat.length ≤ 0 := leadsWith_length hl
        rw [if_pos hl] at h
        simp only [Option.some.injEq, Prod.mk.injEq] at h
        obtain ⟨ha, hb⟩ := h
        rw [← ha, ← hb]
        simp only [List.length_nil]
        omega
      · rw [if_neg hl] at h
        exact absurd h (by simp)
  | cons c rest ih =>
      unfold splitFirst at h
      by_cases hl : leadsWith pat (c :: rest) = true
      · have hle : pat.length ≤ (c :: rest).length := leadsWith_length hl
        rw [if_pos hl] at h
        simp only [Option.some.injEq, Prod.mk.injEq] at h
        obtain ⟨ha, hb⟩ := h
        rw [← ha, ← hb]
        simp only [List.length_nil, List.length_drop, List.length_cons] at hle ⊢
        omega
      · rw [if_neg hl] at h
        cases hsf : splitFirst pat rest with
        | none =>
            rw [hsf] at h
            exact absurd h (by simp)
        | some ab =>
            obtain ⟨a0, b0⟩ := ab
            rw [hsf] at h
            simp only [Option.some.injEq, Prod.mk.injEq] at h
            obtain ⟨ha, hb⟩ := h
            have hlen := ih hsf
            rw [← ha, ← hb]
            simp only [List.length_cons]
            omega

/-! ### handleSpeak sanitization (ai.worker.js)

`handleSpeak` runs
`text.replace(/<think>[\s\S]*?<\/think>/g, '').trim()` before anything else.
The global lazy regex removes, left to right, each span starting at the
first `<think>` and ending at the earliest following `</think>`; an
unmatched opening tag is left in place (no match can start at or after it). -/

def thinkOpen : List Char := "<think>".toList

def thinkClose : List Char := "</think>".toList

set_option linter.unusedVariables false in
/-- Global replace of `/<think>[\s\S]*?<\/think>/g` with the empty string. -/
def removeThink (s : List Char) : List Char :=
  match h1 : splitFirst thinkOpen s with
  | none => s
  | some (pre, r) =>
      match h2 : splitFirst thinkClose r with
      | none => s
      | some (_, post) => pre ++ removeThink post
termination_by s.length
decreasing_by
  have e1 := splitFirst_length h1
  have e2 := splitFirst_length h2
  have l1 : thinkOpen.length = 7 := rfl
  have l2 : thinkClose.length = 8 := rfl
  omega

/-- The sanitized text handleSpeak actually synthesizes. -/
def sanitizeSpeakText (text : List Char) : List Char :=
  jsTrim (removeThink text)

/-! ### ModelManager.switchPipeline (ai.worker.js)

The manager holds `currentPipeline` (the resident capability handle) and
`currentType` (its kind).  `switchPipeline(type, setupFn)`:
  - fast path: if `currentType === type && currentPipeline`, return the
    resident handle, no dispose, no setup;
  - cleanup: if a handle is resident, `await` its `dispose()` inside
    try/catch (a failure is logged and swallowed), then null out both
    fields;
  - setup: `await setupFn()`; on success record handle and type; on failure
    map `RangeError` / messages containing `'allocation'` to a fresh
    `Error` with an out-of-memory message, rethrow anything else.

Handles are modelled as naturals, setup outcomes and dispose failures are
call parameters, and each call yields the trace of its observable actions. -/

/-- The three pipeline kinds requested from the manager in ai.worker.js. -/
inductive Kind
  | stt
  | chat
  | tts
deriving DecidableEq

/-- A JavaScript error value: its `name` and `message` fields, as read by
    the classification in switchPipeline's catch block. -/
structure JsError where
  name : List Char
  message : List Char
deriving DecidableEq

/-- The two mutable fields of ModelManager. -/
structure ArbiterState where
  currentPipeline : Option ℕ
  currentType : Option Kind
deriving DecidableEq

/-- Observable actions of one switchPipeline call. -/
inductive ArbEvent
  | disposeCall (k : Option Kind) (h : ℕ)
  | disposeError (k : Option Kind) (h : ℕ)
  | setupCall (k : Kind)
  | setupDone (k : Kind) (h : ℕ)
deriving DecidableEq

/-- The allocation / out-of-memory signature tested by switchPipeline's
    catch block: `err.name === 'RangeError' || err.message.includes('allocation')`. -/
def oomSignature (e : JsError) : Bool :=
  e.name = "RangeError".toList || strIncludes "allocation".toList e.message

/-- The replacement error thrown for allocation failures:
    `new Error("Out of Memory: ...")`. -/
def oomError : JsError :=
  ⟨"Error".toList,
   "Out of Memory: Failed to allocate model buffers. Try closing other tabs.".toList⟩

/-- The catch-block classification: allocation-pattern errors are replaced
    by the fresh out-of-memory Error; everything else is rethrown unchanged. -/
def mapSetupError (e : JsError) : JsError :=
  if oomSignature e then oomError else e

/-- The robust-cleanup block: dispose the resident handle if any (an error
    is caught and logged), then clear both fields. -/
def cleanupPhase (s : ArbiterState) (disposeFails : Bool) :
    ArbiterState × List ArbEvent :=
  match s.currentPipeline with
  | some h =>
      (⟨none, none⟩,
       ArbEvent.disposeCall s.currentType h ::
         (if disposeFails then [ArbEvent.disposeError s.currentType h] else []))
  | none => (s, [])

/-- Outcome of one switchPipeline call: returned value (or rethrown error),
    final manager state, event trace, and the state observable between the
    cleanup phase and the setup call. -/
structure SwitchOutcome where
  result : Except JsError ℕ
  state : ArbiterState
  events : List ArbEvent
  midState : ArbiterState

/-- ModelManager.switchPipeline.  `setup` is the outcome `await setupFn()`
    would produce; `disposeFails` is whether the old handle's dispose
    throws. -/
def switchPipeline (s : ArbiterState) (k : Kind) (setup : Except JsError ℕ)
    (disposeFails : Bool) : SwitchOutcome :=
  if s.currentType = some k ∧ s.currentPipeline.isSome then
    { result := .ok (s.currentPipeline.getD 0), state := s, events := [],
      midState := s }
  else
    let c := cleanupPhase s disposeFails
    match setup with
    | .ok h =>
        { result := .ok h, state := ⟨some h, some k⟩,
          events := c.2 ++ [ArbEvent.setupCall k, ArbEvent.setupDone k h],
          midState := c.1 }
    | .error e =>
        { result := .error (mapSetupError e), state := c.1,
          events := c.2 ++ [ArbEvent.setupCall k],
          midState := c.1 }

/-- One acquire request: the kind, what its setupFn would do, and whether
    disposing the previously resident handle would throw. -/
structure Request where
  kind : Kind
  setup : Except JsError ℕ
  disposeFails : Bool

/-- The event trace of a sequence of switchPipeline calls. -/
def runRequests (s : ArbiterState) : List Request → List ArbEvent
  | [] => []
  | r :: rs =>
      let o := switchPipeline s r.kind r.setup r.disposeFails
      o.events ++ runRequests o.state rs

/-- Ghost semantics of the events on the accelerator: which handles hold
    runtime sessions.  A dispose call releases the handle's sessions (the
    CapabilityHandle contract: `dispose()` releases every owned session),
    a completed setup creates the new handle's sessions. -/
def applyEvent (live : List ℕ) : ArbEvent → List ℕ
  | .disposeCall _ h => live.erase h
  | .disposeError _ _ => live
  | .setupCall _ => live
  | .setupDone _ h => live ++ [h]

/-- Handles holding sessions after a prefix of the event trace. -/
def sessionsAfter (live : List ℕ) : List ArbEvent → List ℕ
  | [] => live
  | e :: es => sessionsAfter (applyEvent live e) es

/-- The manager field faithfully tracks the set of session-holding handles. -/
def tracksState (s : ArbiterState) (live : List ℕ) : Prop :=
  live = s.currentPipeline.toList

/-- Coupling invariant of the two manager fields: cleared and set together. -/
def goodState (s : ArbiterState) : Prop :=
  (s.currentPipeline = none ↔ s.currentType = none)

theorem prefix_cons_cases {α : Type _} {p : List α} {a : α} {l : List α}
    (h : p <+: a :: l) : p = [] ∨ ∃ q, p = a :: q ∧ q <+: l := by
  obtain ⟨t, ht⟩ := h
  cases p with
  | nil => exact Or.inl rfl
  | cons x xs =>
      injection ht with h1 h2
      exact Or.inr ⟨xs, by rw [h1], ⟨t, h2⟩⟩

theorem prefix_append_cases {α : Type _} {p a b : List α} (h : p <+: a ++ b) :
    p <+: a ∨ ∃ q, q <+: b ∧ p = a ++ q := by
  induction a generalizing p with
  | nil => exact Or.inr ⟨p, by simpa using h, by simp⟩
  | cons x xs ih =>
      rcases prefix_cons_cases h with rfl | ⟨q, rfl, hq⟩
      · exact Or.inl List.nil_prefix
      · rcases ih hq with h1 | ⟨r, hr, rfl⟩
        · left
          obtain ⟨t, ht⟩ := h1
          exact ⟨t, by rw [List.cons_append, ht]⟩
        · exact Or.inr ⟨r, hr, rfl⟩

theorem sessionsAfter_append (live : List ℕ) (l1 l2 : List ArbEvent) :
    sessionsAfter live (l1 ++ l2) = sessionsAfter (sessionsAfter live l1) l2 := by
  induction l1 generalizing live with
  | nil => simp [sessionsAfter]
  | cons e es ih => simp [sessionsAfter, ih]

/-- Per-call safety: starting from a manager state whose field agrees with
    the set of session-holding handles, every intermediate instant of one
    switchPipeline call has at most one session-holding handle, and the
    final manager state again agrees with the session set. -/
theorem switchPipeline_sessions (s : ArbiterState) (k : Kind)
    (setup : Except JsError ℕ) (df : Bool) (live : List ℕ)
    (hts : tracksState s live) :
    (∀ p, p <+: (switchPipeline s k setup df).events →
        (sessionsAfter live p).length ≤ 1) ∧
    tracksState (switchPipeline s k setup df).state
      (sessionsAfter live (switchPipeline s k setup df).events) := by
  unfold tracksState at hts
  subst hts
  have hlive : s.currentPipeline.toList.length ≤ 1 := by
    cases s.currentPipeline <;> simp
  unfold switchPipeline
  by_cases hfast : s.currentType = some k ∧ s.currentPipeline.isSome
  · rw [if_pos hfast]
    refine ⟨fun p hp => ?_, ?_⟩
    · rw [List.prefix_nil.mp hp]
      simpa [sessionsAfter] using hlive
    · simp [tracksState, sessionsAfter]
  · rw [if_neg hfast]
    cases hcp : s.currentPipeline with
    | some h0 =>
        have herase : (s.currentPipeline.toList).erase h0 = [] := by
          simp [hcp]
        cases setup with
        | ok h =>
            cases df with
            | false =>
                refine ⟨fun p hp => ?_, ?_⟩
                · simp only [cleanupPhase, hcp, if_neg Bool.false_ne_true,
                    List.cons_append, List.nil_append] at hp
                  rcases prefix_cons_cases hp with rfl | ⟨q, rfl, hq⟩
                  · simp [sessionsAfter, hcp]
                  rcases prefix_cons_cases hq with rfl | ⟨q2, rfl, hq2⟩
                  · simp [sessionsAfter, applyEvent, hcp]
                  rcases prefix_cons_cases hq2 with rfl | ⟨q3, rfl, hq3⟩
                  · simp [sessionsAfter, applyEvent, hcp]
                  rw [List.prefix_nil.mp hq3]
                  simp [sessionsAfter, applyEvent, hcp]
                · simp [tracksState, cleanupPhase, hcp, sessionsAfter, applyEvent]
            | true =>
                refine ⟨fun p hp => ?_, ?_⟩
                · simp only [cleanupPhase, hcp, if_pos rfl,
                    List.cons_append, List.nil_append] at hp
                  rcases prefix_cons_cases hp with rfl | ⟨q, rfl, hq⟩
                  · simp [sessionsAfter, hcp]
                  rcases prefix_cons_cases hq with rfl | ⟨q2, rfl, hq2⟩
                  · simp [sessionsAfter, applyEvent, hcp]
                  rcases prefix_cons_cases hq2 with rfl | ⟨q3, rfl, hq3⟩
                  · simp [sessionsAfter, applyEvent, hcp]
                  rcases prefix_cons_cases hq3 with rfl | ⟨q4, rfl, hq4⟩
                  · simp [sessionsAfter, applyEvent, hcp]
                  rw [List.prefix_nil.mp hq4]
                  simp [sessionsAfter, applyEvent, hcp]
                · simp [tracksState, cleanupPhase, hcp, sessionsAfter, applyEvent]
        | error e =>
            cases df with
            | false =>
                refine ⟨fun p hp => ?_, ?_⟩
                · simp only [cleanupPhase, hcp, if_neg Bool.false_ne_true,
                    List.cons_append, List.nil_append] at hp
                  rcases prefix_cons_cases hp with rfl | ⟨q, rfl, hq⟩
                  · simp [sessionsAfter, hcp]
                  rcases prefix_cons_cases hq with rfl | ⟨q2, rfl, hq2⟩
                  · simp [sessionsAfter, applyEvent, hcp]
                  rw [List.prefix_nil.mp hq2]
                  simp [sessionsAfter, applyEvent, hcp]
                · simp [tracksState, cleanupPhase, hcp, sessionsAfter, applyEvent]
            | true =>
                refine ⟨fun p hp => ?_, ?_⟩
                · simp only [cleanupPhase, hcp, if_pos rfl,
                    List.cons_append, List.nil_append] at hp
                  rcases prefix_cons_cases hp with rfl | ⟨q, rfl, hq⟩
                  · simp [sessionsAfter, hcp]
                  rcases prefix_cons_cases hq with rfl | ⟨q2, rfl, hq2⟩
                  · simp [sessionsAfter, applyEvent, hcp]
                  rcases prefix_cons_cases hq2 with rfl | ⟨q3, rfl, hq3⟩
                  · simp [sessionsAfter, applyEvent, hcp]
                  rw [List.prefix_nil.mp hq3]
                  simp [sessionsAfter, applyEvent, hcp]
                · simp [tracksState, cleanupPhase, hcp, sessionsAfter, applyEvent]
    | none =>
        cases setup with
        | ok h =>
            refine ⟨fun p hp => ?_, ?_⟩
            · simp only [cleanupPhase, hcp, List.nil_append] at hp
              rcases prefix_cons_cases hp with rfl | ⟨q, rfl, hq⟩
              · simp [sessionsAfter, hcp]
              rcases prefix_cons_cases hq with rfl | ⟨q2, rfl, hq2⟩
              · simp [sessionsAfter, applyEvent, hcp]
              rw [List.prefix_nil.mp hq2]
              simp [sessionsAfter, applyEvent, hcp]
            · simp [tracksState, cleanupPhase, hcp, sessionsAfter, applyEvent]
        | error e =>
            refine ⟨fun p hp => ?_, ?_⟩
            · simp only [cleanupPhase, hcp, List.nil_append] at hp
              rcases prefix_cons_cases hp with rfl | ⟨q, rfl, hq⟩
              · simp [sessionsAfter, hcp]
              rw [List.prefix_nil.mp hq]
              simp [sessionsAfter, applyEvent, hcp]
            · simp [tracksState, cleanupPhase, hcp, sessionsAfter, applyEvent]

/-- Global safety: from a consistent start, every prefix of the event trace
    of any request sequence leaves at most one session-holding handle. -/
theorem runRequests_sessions (reqs : List Request) (s : ArbiterState)
    (live : List ℕ) (hts : tracksState s live) :
    ∀ p, p <+: runRequests s reqs → (sessionsAfter live p).length ≤ 1 := by
  induction reqs generalizing s live with
  | nil =>
      intro p hp
      rw [List.prefix_nil.mp hp]
      rw [hts]
      cases s.currentPipeline <;> simp [sessionsAfter]
  | cons r rs ih =>
      intro p hp
      simp only [runRequests] at hp
      rcases prefix_append_cases hp with h1 | ⟨q, hq, rfl⟩
      · exact (switchPipeline_sessions s r.kind r.setup r.disposeFails live hts).1 p h1
      · rw [sessionsAfter_append]
        exact ih _ _
          (switchPipeline_sessions s r.kind r.setup r.disposeFails live hts).2 q hq

/-- C1: for every sequence of switchPipeline calls started from the fresh
manager, at most one capability pipeline holds sessions at any observable
instant (every prefix of the event trace leaves at most one live handle);
and whenever the requested kind equals the resident kind and its handle is
valid, the call returns that handle unchanged with an empty event trace —
zero dispose() and zero setup() calls. -/
theorem switchPipeline_at_most_one_resident
    (reqs : List Request) (p : List ArbEvent)
    (hp : p <+: runRequests ⟨none, none⟩ reqs)
    (s : ArbiterState) (k : Kind) (h : ℕ) (setup : Except JsError ℕ)
    (df : Bool) (hk : s.currentType = some k)
    (hh : s.currentPipeline = some h) :
    (sessionsAfter [] p).length ≤ 1 ∧
    (switchPipeline s k setup df).result = .ok h ∧
    (switchPipeline s k setup df).state = s ∧
    (switchPipeline s k setup df).events = [] := by
  have hfast : s.currentType = some k ∧ s.currentPipeline.isSome := by
    exact ⟨hk, by simp [hh]⟩
  refine ⟨runRequests_sessions reqs ⟨none, none⟩ [] rfl p hp, ?_, ?_, ?_⟩ <;>
    simp [switchPipeline, hh, hk]

/-- Witness for C1 at a concrete request sequence (stt then tts) and a
concrete resident fast-path state. -/
theorem switchPipeline_at_most_one_resident_witness :
    (sessionsAfter []
        (runRequests ⟨none, none⟩
          [⟨Kind.stt, .ok 1, false⟩, ⟨Kind.tts, .ok 2, false⟩])).length ≤ 1 ∧
    (switchPipeline ⟨some 5, some Kind.tts⟩ Kind.tts (.ok 9) false).result = .ok 5 ∧
    (switchPipeline ⟨some 5, some Kind.tts⟩ Kind.tts (.ok 9) false).state =
      ⟨some 5, some Kind.tts⟩ ∧
    (switchPipeline ⟨some 5, some Kind.tts⟩ Kind.tts (.ok 9) false).events = [] :=
  switchPipeline_at_most_one_resident
    [⟨Kind.stt, .ok 1, false⟩, ⟨Kind.tts, .ok 2, false⟩] _
    (List.prefix_refl _) ⟨some 5, some Kind.tts⟩ Kind.tts 5 (.ok 9) false rfl rfl

/-- C2: when a different capability is resident, the call's event trace is
the disposal of the old handle (with its error, if any, caught — the trace
records it, nothing is thrown) followed strictly by the setup call; the
resident state is cleared only after disposal is attempted, observable as
the fully cleared mid-state; and the returned result is determined by the
setup outcome alone, independent of whether disposal failed. -/
theorem switchPipeline_dispose_before_setup
    (s : ArbiterState) (k : Kind) (h : ℕ) (setup : Except JsError ℕ)
    (df : Bool) (hres : s.currentPipeline = some h)
    (hdiff : s.currentType ≠ some k) :
    (switchPipeline s k setup df).events =
      (ArbEvent.disposeCall s.currentType h ::
        (if df then [ArbEvent.disposeError s.currentType h] else [])) ++
        (ArbEvent.setupCall k ::
          (match setup with
           | .ok hh => [ArbEvent.setupDone k hh]
           | .error _ => [])) ∧
    (switchPipeline s k setup df).midState = ⟨none, none⟩ ∧
    (switchPipeline s k setup df).result =
      (match setup with
       | .ok hh => Except.ok hh
       | .error e => Except.error (mapSetupError e)) := by
  have hnotfast : ¬(s.currentType = some k ∧ s.currentPipeline.isSome) := by
    intro hc
    exact hdiff hc.1
  cases setup with
  | ok hh =>
      refine ⟨?_, ?_, ?_⟩ <;>
        simp [switchPipeline, cleanupPhase, hres, hdiff]
  | error e =>
      refine ⟨?_, ?_, ?_⟩ <;>
        simp [switchPipeline, cleanupPhase, hres, hdiff]

/-- Witness for C2: chat resident, tts requested, disposal fails, setup
succeeds. -/
theorem switchPipeline_dispose_before_setup_witness :
    (switchPipeline ⟨some 3, some Kind.chat⟩ Kind.tts (.ok 4) true).events =
      (ArbEvent.disposeCall (some Kind.chat) 3 ::
        (if true then [ArbEvent.disposeError (some Kind.chat) 3] else [])) ++
        (ArbEvent.setupCall Kind.tts :: [ArbEvent.setupDone Kind.tts 4]) ∧
    (switchPipeline ⟨some 3, some Kind.chat⟩ Kind.tts (.ok 4) true).midState =
      ⟨none, none⟩ ∧
    (switchPipeline ⟨some 3, some Kind.chat⟩ Kind.tts (.ok 4) true).result =
      Except.ok 4 :=
  switchPipeline_dispose_before_setup ⟨some 3, some Kind.chat⟩ Kind.tts 3
    (.ok 4) true rfl (by simp)

/-- C3: when setup() throws, an error matching the allocation /
out-of-memory signature is replaced by the distinct out-of-memory Error
with its user-actionable message, any other error is rethrown unchanged,
and after the exceptional return no capability is recorded as resident
(both manager fields are cleared before the error surfaces). -/
theorem switchPipeline_setup_error
    (s : ArbiterState) (k : Kind) (e : JsError) (df : Bool)
    (hgood : goodState s)
    (hnotfast : ¬(s.currentType = some k ∧ s.currentPipeline.isSome)) :
    (switchPipeline s k (.error e) df).result = .error (mapSetupError e) ∧
    (oomSignature e = true → mapSetupError e = oomError) ∧
    (oomSignature e = false → mapSetupError e = e) ∧
    (switchPipeline s k (.error e) df).state.currentPipeline = none ∧
    (switchPipeline s k (.error e) df).state.currentType = none := by
  refine ⟨?_, ?_, ?_, ?_, ?_⟩
  · simp [switchPipeline, if_neg hnotfast]
  · intro hc
    simp [mapSetupError, hc]
  · intro hc
    simp [mapSetupError, hc]
  · cases hcp : s.currentPipeline with
    | some h0 =>
        have hd : s.currentType ≠ some k := fun hx => hnotfast ⟨hx, by simp [hcp]⟩
        simp [switchPipeline, cleanupPhase, hcp, hd]
    | none => simp [switchPipeline, cleanupPhase, hcp]
  · cases hcp : s.currentPipeline with
    | some h0 =>
        have hd : s.currentType ≠ some k := fun hx => hnotfast ⟨hx, by simp [hcp]⟩
        simp [switchPipeline, cleanupPhase, hcp, hd]
    | none =>
        have hct : s.currentType = none := by
          unfold goodState at hgood
          exact hgood.mp hcp
        simp [switchPipeline, cleanupPhase, hcp, hct]

/-- Witness for C3: chat requested while stt is resident, setup throws a
RangeError. -/
theorem switchPipeline_setup_error_witness :
    (switchPipeline ⟨some 2, some Kind.stt⟩ Kind.chat
        (.error ⟨"RangeError".toList, "x".toList⟩) false).result =
      .error (mapSetupError ⟨"RangeError".toList, "x".toList⟩) ∧
    (oomSignature ⟨"RangeError".toList, "x".toList⟩ = true →
      mapSetupError ⟨"RangeError".toList, "x".toList⟩ = oomError) ∧
    (oomSignature ⟨"RangeError".toList, "x".toList⟩ = false →
      mapSetupError ⟨"RangeError".toList, "x".toList⟩ =
        ⟨"RangeError".toList, "x".toList⟩) ∧
    (switchPipeline ⟨some 2, some Kind.stt⟩ Kind.chat
        (.error ⟨"RangeError".toList, "x".toList⟩) false).state.currentPipeline =
      none ∧
    (switchPipeline ⟨some 2, some Kind.stt⟩ Kind.chat
        (.error ⟨"RangeError".toList, "x".toList⟩) false).state.currentType =
      none :=
  switchPipeline_setup_error ⟨some 2, some Kind.stt⟩ Kind.chat
    ⟨"RangeError".toList, "x".toList⟩ false (by simp [goodState]) (by simp)

/-! ### Text preprocessing and indexing (tts.utils.js)

`preprocessText` normalizes (NFKD — an external Unicode table, taken as an
oracle parameter), strips the emoji block U+1F600–U+1F64F, collapses
whitespace runs to single spaces and trims, appends a terminal `.` unless
the text already ends in terminal punctuation, and wraps the result in
`<lang>...</lang>` tags (`<na>` when no language is given).
`UnicodeProcessor.call` maps each processed text to a zero-padded row of
integer codes of the batch-maximal length, collecting characters whose
indexer entry is missing, null or -1 into the unsupported-characters set,
and builds the presence mask with `lengthToMask`. -/

/-- Members of the terminal-punctuation character class
    tested by `preprocessText`. -/
def punctChars : List Char :=
  ['.', '!', '?', ';', ':', ',', Char.ofNat 39, Char.ofNat 34, ')', ']',
   Char.ofNat 125, '…', '。', '」', '』', '】', '〉', '》', '›', '»']

/-- The emoji block removed by `text.replace(/[\u{1F600}-\u{1F64F}]/gu, '')`. -/
def emojiChar (c : Char) : Bool :=
  0x1F600 ≤ c.toNat && c.toNat ≤ 0x1F64F

theorem dropWhile_length_le {α : Type _} (p : α → Bool) (l : List α) :
    (l.dropWhile p).length ≤ l.length := by
  induction l with
  | nil => simp [List.dropWhile]
  | cons c cs ih =>
      simp only [List.dropWhile]
      by_cases h : p c
      · simp only [h, List.length_cons]
        exact le_trans ih (Nat.le_succ _)
      · simp [h]

/-- Helper for `squeezeWs`: `prevWs` records whether the previous character
    was whitespace (a continuing run emits nothing further). -/
def squeezeWsAux : Bool → List Char → List Char
  | _, [] => []
  | prevWs, c :: rest =>
      if isWs c then
        if prevWs then squeezeWsAux true rest
        else ' ' :: squeezeWsAux true rest
      else c :: squeezeWsAux false rest

/-- `text.replace(/\s+/g, " ")`: each maximal whitespace run becomes a
    single space. -/
def squeezeWs (s : List Char) : List Char :=
  squeezeWsAux false s

/-- Whether the text ends in one of the terminal punctuation characters. -/
def endsWithPunct (t : List Char) : Bool :=
  match t.getLast? with
  | some c => punctChars.contains c
  | none => false

/-- `preprocessText(text, lang)` of tts.utils.js; `nfkd` stands for the
    external `String.prototype.normalize('NFKD')` table. -/
def preprocessText (nfkd : List Char → List Char) (text : List Char)
    (lang : Option (List Char)) : List Char :=
  let t1 := (nfkd text).filter (fun c => !emojiChar c)
  let t2 := jsTrim (squeezeWs t1)
  let t3 := if endsWithPunct t2 then t2 else t2 ++ ['.']
  let tag := match lang with
    | some l => l
    | none => "na".toList
  ('<' :: tag ++ ['>']) ++ t3 ++ ('<' :: '/' :: tag ++ ['>'])

/-- Maximum of a list of integers, 0 on the empty list (the empty case is
    never reached by a caller; `Math.max()` of an empty spread is only hit
    with an empty batch, which produces no rows at all). -/
def listMaxInt : List ℤ → ℤ
  | [] => 0
  | x :: xs => xs.foldl max x

/-- Maximum of a list of rationals, 0 on the empty list. -/
def listMaxQ : List ℚ → ℚ
  | [] => 0
  | x :: xs => xs.foldl max x

/-- One mask entry: `j < lengths[i] ? 1.0 : 0.0`. -/
def maskVal (len : ℤ) (j : ℕ) : ℚ :=
  if (j : ℤ) < len then 1 else 0

/-- `lengthToMask(lengths, maxLen)`: one `[row]` per length, each row
    padded to `maxLen` (defaulted — also on a falsy explicit 0 — to the
    maximum length), with 1.0 at positions below the row's length and 0.0
    elsewhere. -/
def lengthToMask (lengths : List ℤ) (maxLen : Option ℤ) :
    List (List (List ℚ)) :=
  let m : ℤ := match maxLen with
    | none => listMaxInt lengths
    | some v => if v = 0 then listMaxInt lengths else v
  lengths.map fun len => [(List.range m.toNat).map (maskVal len)]

/-- `getTextMask(textIdsLengths)`. -/
def getTextMask (textIdsLengths : List ℕ) : List (List (List ℚ)) :=
  lengthToMask (textIdsLengths.map Int.ofNat) none

/-- The tts.json configuration fields the synthesis pipeline reads. -/
structure Cfgs where
  sample_rate : ℕ
  base_chunk_size : ℕ
  chunk_compress_factor : ℕ
  latent_dim : ℕ

/-- The chunk division both `getLatentMask` and `sampleNoisyLatent` apply:
    `Math.floor((x + c - 1) / c)`. -/
def chunkDivCeil (x : ℚ) (c : ℕ) : ℤ :=
  ⌊(x + c - 1) / (c : ℚ)⌋

/-- `getLatentMask(wavLengths, cfgs)`: per-row latent lengths are
    `floor((len + latentSize - 1) / latentSize)` with
    `latentSize = base_chunk_size * chunk_compress_factor`. -/
def getLatentMask (wavLengths : List ℤ) (cfgs : Cfgs) :
    List (List (List ℚ)) :=
  let latentSize : ℕ := cfgs.base_chunk_size * cfgs.chunk_compress_factor
  let latentLengths := wavLengths.map fun (len : ℤ) => chunkDivCeil (len : ℚ) latentSize
  lengthToMask latentLengths none

/-- The result value of UnicodeProcessor.call. -/
structure ProcResult where
  textIds : List (List ℤ)
  textMask : List (List (List ℚ))
  unsupportedChars : List Char

/-- The code looked up for one character: the indexer value, or the
    reserved 0 when the entry is missing, null, or -1. -/
def lookupIndex (indexer : ℕ → Option ℤ) (c : Char) : ℤ :=
  match indexer c.toNat with
  | none => 0
  | some v => if v = -1 then 0 else v

/-- Whether a character lands in the unsupported-characters set. -/
def unsupportedAt (indexer : ℕ → Option ℤ) (c : Char) : Bool :=
  match indexer c.toNat with
  | none => true
  | some v => v == -1

/-- JS `Set` insertion order: keep the first occurrence of each element. -/
def dedupKeepFirst (l : List Char) : List Char :=
  l.foldl (fun acc c => if acc.contains c then acc else acc ++ [c]) []

/-- `UnicodeProcessor.call(textList, lang)`: processed texts, zero-padded
    code rows of the batch-maximal length, presence mask, unsupported set. -/
def processorCall (indexer : ℕ → Option ℤ) (nfkd : List Char → List Char)
    (textList : List (List Char)) (lang : Option (List Char)) : ProcResult :=
  let processedTexts := textList.map fun t => preprocessText nfkd t lang
  let textIdsLengths := processedTexts.map List.length
  let maxLen : ℕ := (listMaxInt (textIdsLengths.map Int.ofNat)).toNat
  let textIds := processedTexts.map fun t =>
    (List.range maxLen).map fun j =>
      match t[j]? with
      | some c => lookupIndex indexer c
      | none => 0
  let unsupported :=
    dedupKeepFirst ((processedTexts.map fun t =>
      t.filter (unsupportedAt indexer)).flatten)
  ⟨textIds, getTextMask textIdsLengths, unsupported⟩

/-! ### Latent sampling and waveform truncation (tts.utils.js) -/

/-- Per-element noise oracle standing for the Box–Muller draw
    `sqrt(-2 ln u1) * cos(2 pi u2)` from the unspecified `Math.random`
    source (spec design note: reproducibility is not supported by the
    source; the draw is an unconstrained real per (batch, dim, t)). -/
def NoiseOracle : Type := ℕ → ℕ → ℕ → ℚ

/-- Result of `sampleNoisyLatent`. -/
structure NoisyLatentResult where
  noisyLatent : List (List (List ℚ))
  latentMask : List (List (List ℚ))

/-- Mask entry `latentMask[b][0][t]` (provably in bounds at every reachable
    shape; out-of-bounds defaults to 0, the masked value). -/
def maskEntry (mask : List (List (List ℚ))) (b t : ℕ) : ℚ :=
  (((mask.getD b []).getD 0 []).getD t 0)

/-- `sampleNoisyLatent(duration, cfgs)`: the latent buffer of shape
    batch × (latent_dim * chunk_compress_factor) × latentLen filled with
    noise and multiplied in place by the length-derived latent mask.
    `duration` holds the per-batch scalars `d[0][0]`. -/
def sampleNoisyLatent (duration : List ℚ) (cfgs : Cfgs)
    (randn : NoiseOracle) : NoisyLatentResult :=
  let sr : ℚ := cfgs.sample_rate
  let chunkSize : ℕ := cfgs.base_chunk_size * cfgs.chunk_compress_factor
  let wavLenMax : ℚ := listMaxQ duration * sr
  let wavLengths : List ℤ := duration.map fun d => ⌊d * sr⌋
  let latentLen : ℕ := (chunkDivCeil wavLenMax chunkSize).toNat
  let latentDim : ℕ := cfgs.latent_dim * cfgs.chunk_compress_factor
  let latentMask := getLatentMask wavLengths cfgs
  let noisyLatent := (List.range duration.length).map fun b =>
    (List.range latentDim).map fun d =>
      (List.range latentLen).map fun t =>
        randn b d t * maskEntry latentMask b t
  ⟨noisyLatent, latentMask⟩

/-- Modelled from the claim's words (refinement comparison only): the
    spec's latent time axis `ceil(predicted_samples / chunk_size)`. -/
def specTimeAxis (predictedSamples : ℚ) (chunkSize : ℕ) : ℤ :=
  ⌈predictedSamples / (chunkSize : ℚ)⌉

/-- The duration scaling `durOnnx[i] *= durationFactor` of
    generateSupertonicSpeech. -/
def scaleDuration (durRaw durationFactor : ℚ) : ℚ :=
  durRaw * durationFactor

/-- `wavLen = Math.floor(sampleRate * durOnnx[0])`. -/
def wavTruncLen (sampleRate : ℕ) (dur0 : ℚ) : ℤ :=
  ⌊(sampleRate : ℚ) * dur0⌋

/-- `audioData = wavBatch.slice(0, wavLen)`: the emitted waveform. -/
def truncateWav (wavBatch : List ℚ) (sampleRate : ℕ) (dur0 : ℚ) : List ℚ :=
  wavBatch.take (wavTruncLen sampleRate dur0).toNat

theorem getD_map_lt {α β : Type _} (f : α → β) (l : List α) (i : ℕ) (d : β)
    (hi : i < l.length) : (l.map f).getD i d = f (l[i]) := by
  induction l generalizing i with
  | nil => simp at hi
  | cons x xs ih =>
      cases i with
      | zero => simp
      | succ n =>
          simp only [List.map_cons, List.getD_cons_succ, List.getElem_cons_succ]
          exact ih n (by simpa using hi)

theorem getD_range_map_lt {β : Type _} (g : ℕ → β) (m j : ℕ) (d : β)
    (hj : j < m) : ((List.range m).map g).getD j d = g j := by
  rw [getD_map_lt g (List.range m) j d (by simpa using hj)]
  simp

theorem getD_oob {α : Type _} (l : List α) (i : ℕ) (d : α)
    (hi : l.length ≤ i) : l.getD i d = d := by
  induction l generalizing i with
  | nil => simp [List.getD]
  | cons x xs ih =>
      cases i with
      | zero => simp at hi
      | succ n =>
          simp only [List.getD_cons_succ]
          exact ih n (by simpa using hi)

/-- Core mask property of `lengthToMask` with the defaulted maximum. -/
theorem lengthToMask_spec (lengths : List ℤ) (i j : ℕ)
    (hi : i < lengths.length) :
    ((((lengthToMask lengths none).getD i []).getD 0 []).length =
      (listMaxInt lengths).toNat) ∧
    ((((lengthToMask lengths none).getD i []).getD 0 []).getD j 0 =
      if (j : ℤ) < lengths[i] ∧ j < (listMaxInt lengths).toNat then (1 : ℚ) else 0) := by
  have hrow : (lengthToMask lengths none).getD i [] =
      [(List.range (listMaxInt lengths).toNat).map (maskVal lengths[i])] := by
    unfold lengthToMask
    exact getD_map_lt _ lengths i [] hi
  rw [hrow]
  refine ⟨by simp, ?_⟩
  by_cases hj : j < (listMaxInt lengths).toNat
  · rw [List.getD_cons_zero, getD_range_map_lt _ _ _ _ hj]
    unfold maskVal
    by_cases hlt : (j : ℤ) < lengths[i] <;> simp [hlt, hj]
  · rw [List.getD_cons_zero, getD_oob _ _ _ (by simpa using Nat.le_of_not_lt hj)]
    simp [hj]

/-- C4: for a batch of input strings with processed lengths L, the Text
Indexer's presence mask satisfies mask[i][j] = 1 iff j < L[i] (0 otherwise),
and every mask row is padded to the length of the longest row. -/
theorem textMask_invariant
    (indexer : ℕ → Option ℤ) (nfkd : List Char → List Char)
    (textList : List (List Char)) (lang : Option (List Char))
    (i j : ℕ) (hi : i < textList.length) :
    ((((processorCall indexer nfkd textList lang).textMask.getD i []).getD 0
        []).length =
      (listMaxInt ((textList.map fun t =>
        (preprocessText nfkd t lang).length).map Int.ofNat)).toNat) ∧
    (j < (listMaxInt ((textList.map fun t =>
        (preprocessText nfkd t lang).length).map Int.ofNat)).toNat →
      ((((processorCall indexer nfkd textList lang).textMask.getD i []).getD 0
          []).getD j 0 = 1 ↔
        j < (preprocessText nfkd textList[i] lang).length)) := by
  have hmask : (processorCall indexer nfkd textList lang).textMask =
      lengthToMask (((textList.map fun t => preprocessText nfkd t lang).map
        List.length).map Int.ofNat) none := by
    simp [processorCall, getTextMask]
  have hLL : ((textList.map fun t => preprocessText nfkd t lang).map
      List.length).map Int.ofNat =
      ((textList.map fun t => (preprocessText nfkd t lang).length).map
        Int.ofNat) := by
    simp [List.map_map]
  rw [hmask, hLL]
  set L : List ℤ := (textList.map fun t =>
    (preprocessText nfkd t lang).length).map Int.ofNat with hL
  have hiL : i < L.length := by simp [hL, hi]
  have hspec := lengthToMask_spec L i j hiL
  refine ⟨hspec.1, fun hj => ?_⟩
  rw [hspec.2]
  have hLi : L[i] = ((preprocessText nfkd textList[i] lang).length : ℤ) := by
    simp [hL]
  rw [hLi]
  have hcast : ((j : ℤ) < ((preprocessText nfkd textList[i] lang).length : ℤ)) ↔
      j < (preprocessText nfkd textList[i] lang).length := Int.ofNat_lt
  by_cases hlt : j < (preprocessText nfkd textList[i] lang).length
  · simp [hcast.mpr hlt, hj, hlt]
  · have hn : ¬((j : ℤ) < ((preprocessText nfkd textList[i] lang).length : ℤ)) :=
      fun hc => hlt (hcast.mp hc)
    simp [hn, hlt]

/-- Witness for C4 at the concrete batch ["ab", "c"], language "en",
total indexer: the second row's mask is padded to the first row's
processed length 12, and position 2 is 1 precisely because 2 < 11. -/
theorem textMask_invariant_witness :
    ((((processorCall (fun _ => some 7) id ["ab".toList, "c".toList]
        (some "en".toList)).textMask.getD 1 []).getD 0 []).length =
      (listMaxInt ((["ab".toList, "c".toList].map fun t =>
        (preprocessText id t (some "en".toList)).length).map Int.ofNat)).toNat) ∧
    (2 < (listMaxInt ((["ab".toList, "c".toList].map fun t =>
        (preprocessText id t (some "en".toList)).length).map Int.ofNat)).toNat →
      ((((processorCall (fun _ => some 7) id ["ab".toList, "c".toList]
          (some "en".toList)).textMask.getD 1 []).getD 0 []).getD 2 0 = 1 ↔
        2 < (preprocessText id ("c".toList) (some "en".toList)).length)) :=
  textMask_invariant (fun _ => some 7) id ["ab".toList, "c".toList]
    (some "en".toList) 1 2 (by decide)

/-- On an integer argument, the code's `floor((x + c - 1) / c)` agrees with
    the spec's `ceil(x / c)` (it is only on fractional arguments that the
    two differ). -/
theorem chunkDivCeil_intCast (x : ℤ) (c : ℕ) (hc : 0 < c) :
    chunkDivCeil (x : ℚ) c = specTimeAxis (x : ℚ) c := by
  have hcq : (0 : ℚ) < c := by exact_mod_cast hc
  set q : ℤ := ⌈(x : ℚ) / (c : ℚ)⌉ with hq
  have h1 : (x : ℚ) / c ≤ q := Int.le_ceil _
  have h2 : (q : ℚ) < (x : ℚ) / c + 1 := Int.ceil_lt_add_one _
  have hx1 : (x : ℚ) ≤ q * c := by
    have := mul_le_mul_of_nonneg_right h1 (le_of_lt hcq)
    rwa [div_mul_cancel₀ _ (ne_of_gt hcq)] at this
  have hx2 : ((q : ℚ) - 1) * c < x := by
    have hlt : (q : ℚ) - 1 < (x : ℚ) / c := by linarith
    have := mul_lt_mul_of_pos_right hlt hcq
    rwa [div_mul_cancel₀ _ (ne_of_gt hcq)] at this
  have hi2 : (q - 1) * (c : ℤ) < x := by exact_mod_cast hx2
  have hi2' : (q - 1) * (c : ℤ) + 1 ≤ x := hi2
  have hq2 : ((q : ℚ) - 1) * c + 1 ≤ x := by exact_mod_cast hi2'
  unfold chunkDivCeil specTimeAxis
  rw [Int.floor_eq_iff]
  constructor
  · rw [le_div_iff₀ hcq]
    linarith
  · rw [div_lt_iff₀ hcq]
    linarith

/-- C5 (amended): the latent buffer's time axis equals
`floor((predicted_samples + chunk_size - 1) / chunk_size)` where
`chunk_size = base_chunk_size * chunk_compress_factor` (this agrees with the
spec's `ceil(predicted_samples / chunk_size)` exactly on integer sample
counts — third conjunct); and after noise initialization every latent
position at or beyond the true per-row latent length is exactly zero, for
all channels of that row. -/
theorem sampleNoisyLatent_shape_and_mask
    (duration : List ℚ) (cfgs : Cfgs) (randn : NoiseOracle)
    (b d t : ℕ) (x : ℤ) (hb : b < duration.length)
    (hd : d < cfgs.latent_dim * cfgs.chunk_compress_factor)
    (hmask : chunkDivCeil ((⌊duration[b] * (cfgs.sample_rate : ℚ)⌋ : ℤ) : ℚ)
        (cfgs.base_chunk_size * cfgs.chunk_compress_factor) ≤ (t : ℤ))
    (hpos : 0 < cfgs.base_chunk_size * cfgs.chunk_compress_factor) :
    ((((sampleNoisyLatent duration cfgs randn).noisyLatent.getD b []).getD d
        []).length =
      (chunkDivCeil (listMaxQ duration * (cfgs.sample_rate : ℚ))
        (cfgs.base_chunk_size * cfgs.chunk_compress_factor)).toNat) ∧
    ((((sampleNoisyLatent duration cfgs randn).noisyLatent.getD b []).getD d
        []).getD t 0 = 0) ∧
    (chunkDivCeil (x : ℚ) (cfgs.base_chunk_size * cfgs.chunk_compress_factor) =
      specTimeAxis (x : ℚ) (cfgs.base_chunk_size * cfgs.chunk_compress_factor)) := by
  set ls : ℕ := cfgs.base_chunk_size * cfgs.chunk_compress_factor with hls
  set ll : ℕ := (chunkDivCeil (listMaxQ duration * (cfgs.sample_rate : ℚ)) ls).toNat
    with hll
  set wavLengths : List ℤ := duration.map fun dd => ⌊dd * (cfgs.sample_rate : ℚ)⌋
    with hwl
  set latentLengths : List ℤ :=
    wavLengths.map fun (len : ℤ) => chunkDivCeil (len : ℚ) ls with hlatl
  have hrowb : (sampleNoisyLatent duration cfgs randn).noisyLatent.getD b [] =
      (List.range (cfgs.latent_dim * cfgs.chunk_compress_factor)).map
        fun dd => (List.range ll).map
          fun tt => randn b dd tt *
            maskEntry (getLatentMask wavLengths cfgs) b tt := by
    unfold sampleNoisyLatent
    exact getD_range_map_lt _ _ _ _ hb
  have hrowd : ((sampleNoisyLatent duration cfgs randn).noisyLatent.getD b
      []).getD d [] =
      (List.range ll).map
        fun tt => randn b d tt *
          maskEntry (getLatentMask wavLengths cfgs) b tt := by
    rw [hrowb]
    exact getD_range_map_lt _ _ _ _ hd
  have hmask0 : maskEntry (getLatentMask wavLengths cfgs) b t = 0 := by
    have hbl : b < latentLengths.length := by simp [hlatl, hwl, hb]
    have hspec := (lengthToMask_spec latentLengths b t hbl).2
    have hlb : latentLengths[b] =
        chunkDivCeil ((⌊duration[b] * (cfgs.sample_rate : ℚ)⌋ : ℤ) : ℚ) ls := by
      simp [hlatl, hwl]
    unfold maskEntry
    have hglm : getLatentMask wavLengths cfgs = lengthToMask latentLengths none := by
      simp [getLatentMask, hlatl, hls]
    rw [hglm, hspec, hlb]
    have hnot : ¬((t : ℤ) < chunkDivCeil
        ((⌊duration[b] * (cfgs.sample_rate : ℚ)⌋ : ℤ) : ℚ) ls) :=
      not_lt.mpr hmask
    simp [hnot]
  refine ⟨by rw [hrowd]; simp, ?_, chunkDivCeil_intCast x ls hpos⟩
  rw [hrowd]
  by_cases ht : t < ll
  · rw [getD_range_map_lt _ _ _ _ ht, hmask0, mul_zero]
  · rw [getD_oob _ _ _ (by simpa using Nat.le_of_not_lt ht)]

/-- Witness for C5 (amended) at duration 1/2, sample rate 2, chunk size 2:
the buffer time axis is 1, position 1 of the single row is masked to zero,
and on the integer sample count 5 the code's formula agrees with ceil. -/
theorem sampleNoisyLatent_shape_and_mask_witness :
    ((((sampleNoisyLatent [(1 : ℚ)/2] ⟨2, 2, 1, 1⟩
        (fun _ _ _ => 1)).noisyLatent.getD 0 []).getD 0 []).length =
      (chunkDivCeil (listMaxQ [(1 : ℚ)/2] * ((2 : ℕ) : ℚ)) (2 * 1)).toNat) ∧
    ((((sampleNoisyLatent [(1 : ℚ)/2] ⟨2, 2, 1, 1⟩
        (fun _ _ _ => 1)).noisyLatent.getD 0 []).getD 0 []).getD 1 0 = 0) ∧
    (chunkDivCeil ((5 : ℤ) : ℚ) (2 * 1) = specTimeAxis ((5 : ℤ) : ℚ) (2 * 1)) :=
  sampleNoisyLatent_shape_and_mask [(1 : ℚ)/2] ⟨2, 2, 1, 1⟩
    (fun _ _ _ => 1) 0 0 1 5 (by norm_num) (by norm_num)
    (by
      unfold chunkDivCeil
      push_cast
      norm_num)
    (by norm_num)

/-- Counterexample to C5 as stated: with sample_rate 2, base chunk size 2,
compress factor 1 (chunk_size = 2) and predicted duration 1/4 (predicted
samples 1/2, not an integer), the code's latent time axis is
floor((1/2 + 2 - 1)/2) = 0 while the claimed ceil(1/2 / 2) is 1. -/
theorem sampleNoisyLatent_time_axis_counterexample :
    ((((sampleNoisyLatent [(1 : ℚ)/4] ⟨2, 2, 1, 1⟩
        (fun _ _ _ => 1)).noisyLatent.getD 0 []).getD 0 []).length = 0) ∧
    specTimeAxis ((1 : ℚ)/4 * 2) (2 * 1) = 1 := by
  constructor
  · simp only [sampleNoisyLatent, List.length_cons, List.length_nil,
      List.getD_cons_zero, List.length_map, List.length_range]
    unfold chunkDivCeil listMaxQ
    push_cast
    norm_num
  · unfold specTimeAxis
    rw [Int.ceil_eq_iff]
    push_cast
    norm_num

/-- C6: the emitted waveform is the vocoder output truncated to
`floor(sample_rate * (d * f))` samples, which is within one sample of
`round(sample_rate * f * d)`. -/
theorem truncation_duration_scaling
    (sampleRate : ℕ) (durRaw f : ℚ) (wavBatch : List ℚ)
    (hnn : 0 ≤ (sampleRate : ℚ) * (durRaw * f))
    (hlen : (wavTruncLen sampleRate (scaleDuration durRaw f)).toNat ≤
      wavBatch.length) :
    ((truncateWav wavBatch sampleRate (scaleDuration durRaw f)).length : ℤ) =
      ⌊(sampleRate : ℚ) * (durRaw * f)⌋ ∧
    ⌊(sampleRate : ℚ) * (durRaw * f)⌋ ≤ round ((sampleRate : ℚ) * (durRaw * f)) ∧
    round ((sampleRate : ℚ) * (durRaw * f)) ≤ ⌊(sampleRate : ℚ) * (durRaw * f)⌋ + 1 := by
  refine ⟨?_, ?_, ?_⟩
  · unfold truncateWav
    rw [List.length_take, min_eq_left hlen]
    unfold wavTruncLen scaleDuration
    exact Int.toNat_of_nonneg (Int.floor_nonneg.mpr hnn)
  · rw [round_eq]
    exact Int.floor_mono (by linarith)
  · rw [round_eq]
    have h1 : ⌊(sampleRate : ℚ) * (durRaw * f) + 1/2⌋ ≤
        ⌊(sampleRate : ℚ) * (durRaw * f) + 1⌋ := Int.floor_mono (by linarith)
    calc ⌊(sampleRate : ℚ) * (durRaw * f) + 1/2⌋
        ≤ ⌊(sampleRate : ℚ) * (durRaw * f) + 1⌋ := h1
      _ = ⌊(sampleRate : ℚ) * (durRaw * f)⌋ + 1 := Int.floor_add_one _

/-- Witness for C6 at sample rate 4, raw duration 3/2, factor 1/2 and a
5-sample vocoder output: the emitted length is floor(4 * 3/4) = 3. -/
theorem truncation_duration_scaling_witness :
    ((truncateWav [0, 0, 0, 0, 0] 4 (scaleDuration (3/2 : ℚ) (1/2))).length : ℤ) =
      ⌊((4 : ℕ) : ℚ) * ((3/2 : ℚ) * (1/2))⌋ ∧
    ⌊((4 : ℕ) : ℚ) * ((3/2 : ℚ) * (1/2))⌋ ≤
      round (((4 : ℕ) : ℚ) * ((3/2 : ℚ) * (1/2))) ∧
    round (((4 : ℕ) : ℚ) * ((3/2 : ℚ) * (1/2))) ≤
      ⌊((4 : ℕ) : ℚ) * ((3/2 : ℚ) * (1/2))⌋ + 1 :=
  truncation_duration_scaling 4 (3/2) (1/2) [0, 0, 0, 0, 0]
    (by norm_num)
    (by unfold wavTruncLen scaleDuration; push_cast; norm_num)

/-! ### Hallucination filter (handleTranscribe, ai.worker.js)

`outputText = output.text.trim()`;
`isHallucination = /^\s*\(.*\)\s*$/.test(outputText) || outputText.length < 2`;
when it holds the worker posts the error "No meaningful speech detected."
instead of a completed transcription.  On a trimmed string the regex is
equivalent to: first character `(`, last character `)`, and no line
terminator strictly between them (`.` does not match line terminators and
the anchored `\s*` groups are forced empty by trimming). -/

/-- JS line terminators, which `.` never matches. -/
def lineTerminator (c : Char) : Bool :=
  c == '\n' || c == '\r' || c == Char.ofNat 0x2028 || c == Char.ofNat 0x2029

/-- `/^\s*\(.*\)\s*$/.test` on an already-trimmed string. -/
def parenRegexTest (t : List Char) : Bool :=
  match t with
  | [] => false
  | c :: rest =>
      c == '(' &&
        (match rest.getLast? with
         | some d => d == ')' && (rest.dropLast.all fun x => !lineTerminator x)
         | none => false)

/-- The filter of handleTranscribe, applied to the raw model output. -/
def isHallucination (rawText : List Char) : Bool :=
  parenRegexTest (jsTrim rawText) || (jsTrim rawText).length < 2

/-- What handleTranscribe reports for one model output. -/
inductive TranscribeOutcome
  | noSpeech
  | completed (text : List Char)
deriving DecidableEq

/-- The classification step of handleTranscribe: no-speech error message or
    the trimmed transcription. -/
def handleTranscribeResult (modelText : List Char) : TranscribeOutcome :=
  if isHallucination modelText then TranscribeOutcome.noSpeech
  else TranscribeOutcome.completed (jsTrim modelText)

/-- Modelled from the claim's words (refinement comparison only): no-speech
    iff empty, below the minimum length, or consisting solely of a
    parenthetical OR bracketed non-speech marker. -/
def specNoSpeechClaim (raw : List Char) : Bool :=
  (jsTrim raw).length < 2 ||
    ((jsTrim raw).head? == some '(' && (jsTrim raw).getLast? == some ')') ||
    ((jsTrim raw).head? == some '[' && (jsTrim raw).getLast? == some ']')

/-- The amended spec predicate: no-speech iff the trimmed text is shorter
    than 2 characters or is wrapped in round parentheses with no line
    terminator in between (bracketed markers are not filtered). -/
def specNoSpeechAmended (raw : List Char) : Bool :=
  (jsTrim raw).length < 2 ||
    ((jsTrim raw).head? == some '(' && (jsTrim raw).getLast? == some ')' &&
      (((jsTrim raw).drop 1).dropLast.all fun c => !lineTerminator c))

/-! ### handleSpeak (ai.worker.js) -/

/-- Observable actions of one handleSpeak call (the error posting comes
    from the surrounding message-listener catch, never from the empty-text
    path). -/
inductive SpeakEvent
  | postComplete
  | postError
  | acquireTts
  | synthesize (text : List Char)
deriving DecidableEq

/-- handleSpeak: sanitize, return early with a normal completion when
    nothing speakable remains, otherwise acquire the tts pipeline and run
    the synthesis engine on the sanitized text. -/
def handleSpeak (text : List Char) : List SpeakEvent :=
  let sanitizedText := sanitizeSpeakText text
  if sanitizedText = [] then [SpeakEvent.postComplete]
  else
    [SpeakEvent.acquireTts, SpeakEvent.synthesize sanitizedText,
     SpeakEvent.postComplete]

theorem removeThink_of_open_none {s : List Char}
    (h : splitFirst thinkOpen s = none) : removeThink s = s := by
  rw [removeThink]
  split
  · rfl
  · next pre r heq => rw [h] at heq; exact absurd heq (by simp)

theorem removeThink_of_close_none {s pre r : List Char}
    (h1 : splitFirst thinkOpen s = some (pre, r))
    (h2 : splitFirst thinkClose r = none) : removeThink s = s := by
  rw [removeThink]
  split
  · rfl
  · next pre2 r2 heq =>
      rw [h1] at heq
      injection heq with heq2
      injection heq2 with ha hb
      subst ha
      subst hb
      split
      · rfl
      · next mid post heq3 => rw [h2] at heq3; exact absurd heq3 (by simp)

theorem removeThink_step {s pre r mid post : List Char}
    (h1 : splitFirst thinkOpen s = some (pre, r))
    (h2 : splitFirst thinkClose r = some (mid, post)) :
    removeThink s = pre ++ removeThink post := by
  rw [removeThink]
  split
  · next heq => rw [h1] at heq; exact absurd heq (by simp)
  · next pre2 r2 heq =>
      rw [h1] at heq
      injection heq with heq2
      injection heq2 with ha hb
      subst ha
      subst hb
      split
      · next heq3 => rw [h2] at heq3; exact absurd heq3 (by simp)
      · next mid2 post2 heq3 =>
          rw [h2] at heq3
          injection heq3 with heq4
          injection heq4 with hc hd
          subst hd
          rfl

/-! ### Orchestrator mutex (mutex.js, useAssistant.js) -/

/-- The two fields of the Mutex (`_locked`, and the length of `_queue`). -/
structure MutexState where
  locked : Bool
  queue : ℕ
deriving DecidableEq

/-- `lock()`: enqueue the waiter when locked, otherwise take the lock (the
    promise resolves immediately). -/
def mutexLock (m : MutexState) : MutexState :=
  if m.locked then { m with queue := m.queue + 1 }
  else { m with locked := true }

/-- `isLocked()`. -/
def mutexIsLocked (m : MutexState) : Bool :=
  m.locked

/-- The orchestrator state touched by processAudio's entry section. -/
structure AssistantState where
  mutex : MutexState
  status : List Char
  transcript : List Char
  response : List Char
deriving DecidableEq

/-- Observable actions of processAudio's entry section. -/
inductive OrchEvent
  | statusTransition (s : List Char)
  | workerRequest (action : List Char)
deriving DecidableEq

/-- The entry section of processAudio: `if (mutex.isLocked()) return;`
    then `await mutex.lock()`, `setStatus('transcribing')`, clear the
    transcript and response, and post the transcribe request. -/
def processAudioStart (s : AssistantState) : AssistantState × List OrchEvent :=
  if mutexIsLocked s.mutex then (s, [])
  else
    ({ mutex := mutexLock s.mutex, status := "transcribing".toList,
       transcript := [], response := [] },
     [OrchEvent.statusTransition "transcribing".toList,
      OrchEvent.workerRequest "transcribe".toList])

theorem option_some_beq {α : Type _} [BEq α] (a b : α) :
    (some a == some b) = (a == b) := rfl

/-- The code's classifier agrees everywhere with the amended spec
    predicate. -/
theorem isHallucination_eq_amended (raw : List Char) :
    isHallucination raw = specNoSpeechAmended raw := by
  unfold isHallucination specNoSpeechAmended
  cases ht : jsTrim raw with
  | nil => simp [parenRegexTest]
  | cons c rest =>
      cases hl : rest.getLast? with
      | none =>
          have hr : rest = [] := by
            cases rest with
            | nil => rfl
            | cons a as => simp at hl
          subst hr
          simp [parenRegexTest]
      | some d =>
          have hgl : (c :: rest).getLast? = some d := by
            cases rest with
            | nil => simp at hl
            | cons a as => simpa using hl
          simp only [parenRegexTest, hl, hgl, List.head?_cons, option_some_beq,
            List.drop_succ_cons, List.drop_zero]
          rw [Bool.or_comm, Bool.and_assoc]

/-- C7 (amended): the trailing-noise filter classifies a transcription
output as no-speech (reporting the no-speech error rather than a result)
iff the trimmed text is shorter than the minimum length 2 or is wrapped in
round parentheses with no line terminator inside; bracketed markers are
not filtered.  In particular "(inaudible)" and "" classify as no-speech
and "hello there" does not. -/
theorem hallucination_filter_amended (raw : List Char) :
    (handleTranscribeResult raw = TranscribeOutcome.noSpeech ↔
      specNoSpeechAmended raw = true) ∧
    handleTranscribeResult "(inaudible)".toList = TranscribeOutcome.noSpeech ∧
    handleTranscribeResult "".toList = TranscribeOutcome.noSpeech ∧
    handleTranscribeResult "hello there".toList =
      TranscribeOutcome.completed ("hello there".toList) := by
  refine ⟨?_, by decide, by decide, by decide⟩
  unfold handleTranscribeResult
  rw [isHallucination_eq_amended]
  by_cases hs : specNoSpeechAmended raw = true
  · simp [hs]
  · simp [hs]

/-- Counterexample to C7 as stated: "[music]" consists solely of a
bracketed non-speech marker, so the claim requires it to classify as
no-speech, but the filter's regex only matches round parentheses and the
code reports it as a completed transcription. -/
theorem hallucination_filter_counterexample :
    specNoSpeechClaim "[music]".toList = true ∧
    handleTranscribeResult "[music]".toList =
      TranscribeOutcome.completed ("[music]".toList) := by
  exact ⟨by decide, by decide⟩

/-- C9: a submission made while the orchestrator's lock is held is dropped
as a complete no-op — the state is unchanged and no status transition and
no worker request is emitted — and in the two-submission scenario only the
first submission produces a Transcribing transition. -/
theorem processAudio_second_submission_dropped
    (s s0 : AssistantState) (hlock : s.mutex.locked = true)
    (hunlock : s0.mutex.locked = false) :
    processAudioStart s = (s, []) ∧
    processAudioStart (processAudioStart s0).1 =
      ((processAudioStart s0).1, []) ∧
    (processAudioStart s0).2.count
      (OrchEvent.statusTransition "transcribing".toList) = 1 ∧
    (processAudioStart (processAudioStart s0).1).2.count
      (OrchEvent.statusTransition "transcribing".toList) = 0 := by
  have hfirst : processAudioStart s0 =
      ({ mutex := mutexLock s0.mutex, status := "transcribing".toList,
         transcript := [], response := [] },
       [OrchEvent.statusTransition "transcribing".toList,
        OrchEvent.workerRequest "transcribe".toList]) := by
    unfold processAudioStart mutexIsLocked
    simp [hunlock]
  have hdrop : processAudioStart s = (s, []) := by
    unfold processAudioStart mutexIsLocked
    simp [hlock]
  have hsecond : processAudioStart (processAudioStart s0).1 =
      ((processAudioStart s0).1, []) := by
    rw [hfirst]
    unfold processAudioStart mutexIsLocked mutexLock
    simp [hunlock]
  refine ⟨hdrop, hsecond, ?_, ?_⟩
  · rw [hfirst]
    show List.count (OrchEvent.statusTransition "transcribing".toList)
      [OrchEvent.statusTransition "transcribing".toList,
       OrchEvent.workerRequest "transcribe".toList] = 1
    decide
  · rw [hsecond]
    show List.count (OrchEvent.statusTransition "transcribing".toList) [] = 0
    simp

/-- Witness for C9: a locked state and an idle unlocked state. -/
theorem processAudio_second_submission_dropped_witness :
    processAudioStart ⟨⟨true, 0⟩, "idle".toList, [], []⟩ =
      (⟨⟨true, 0⟩, "idle".toList, [], []⟩, []) ∧
    processAudioStart (processAudioStart ⟨⟨false, 0⟩, "idle".toList, [], []⟩).1 =
      ((processAudioStart ⟨⟨false, 0⟩, "idle".toList, [], []⟩).1, []) ∧
    (processAudioStart ⟨⟨false, 0⟩, "idle".toList, [], []⟩).2.count
      (OrchEvent.statusTransition "transcribing".toList) = 1 ∧
    (processAudioStart
        (processAudioStart ⟨⟨false, 0⟩, "idle".toList, [], []⟩).1).2.count
      (OrchEvent.statusTransition "transcribing".toList) = 0 :=
  processAudio_second_submission_dropped
    ⟨⟨true, 0⟩, "idle".toList, [], []⟩
    ⟨⟨false, 0⟩, "idle".toList, [], []⟩ rfl rfl

/-- C10: every lazily-matched `<think>...</think>` span — tags and enclosed
content — is removed (the removal consumes the span and continues after
it; a text with no opening tag is left unchanged), the result is trimmed
before synthesis, and when nothing remains the request completes
immediately with no tts-pipeline acquisition and no synthesis-engine
call. -/
theorem handleSpeak_think_removal
    (text pre r mid post s0 : List Char)
    (h1 : splitFirst thinkOpen text = some (pre, r))
    (h2 : splitFirst thinkClose r = some (mid, post))
    (h3 : splitFirst thinkOpen s0 = none) :
    removeThink text = pre ++ removeThink post ∧
    removeThink s0 = s0 ∧
    (sanitizeSpeakText text = [] →
      handleSpeak text = [SpeakEvent.postComplete]) ∧
    (sanitizeSpeakText text ≠ [] →
      handleSpeak text =
        [SpeakEvent.acquireTts, SpeakEvent.synthesize (sanitizeSpeakText text),
         SpeakEvent.postComplete]) := by
  refine ⟨removeThink_step h1 h2, removeThink_of_open_none h3, ?_, ?_⟩
  · intro he
    unfold handleSpeak
    simp [he]
  · intro hne
    unfold handleSpeak
    simp [hne]

/-- Witness for C10 at text "x<think>a</think>y": the span is removed, "y"
is left unchanged, and the synthesized text is the sanitized result. -/
theorem handleSpeak_think_removal_witness :
    removeThink "x<think>a</think>y".toList =
      "x".toList ++ removeThink "y".toList ∧
    removeThink "y".toList = "y".toList ∧
    (sanitizeSpeakText "x<think>a</think>y".toList = [] →
      handleSpeak "x<think>a</think>y".toList = [SpeakEvent.postComplete]) ∧
    (sanitizeSpeakText "x<think>a</think>y".toList ≠ [] →
      handleSpeak "x<think>a</think>y".toList =
        [SpeakEvent.acquireTts,
         SpeakEvent.synthesize (sanitizeSpeakText "x<think>a</think>y".toList),
         SpeakEvent.postComplete]) :=
  handleSpeak_think_removal "x<think>a</think>y".toList "x".toList
    "a</think>y".toList "a".toList "y".toList "y".toList
    (by decide) (by decide) (by decide)

theorem le_foldl_max (xs : List ℤ) (x : ℤ) : x ≤ xs.foldl max x := by
  induction xs generalizing x with
  | nil => exact le_refl x
  | cons y ys ih => exact le_trans (le_max_left x y) (ih (max x y))

theorem mem_le_foldl_max (xs : List ℤ) (x a : ℤ) (ha : a ∈ xs) :
    a ≤ xs.foldl max x := by
  induction xs generalizing x with
  | nil => cases ha
  | cons y ys ih =>
      rcases List.mem_cons.mp ha with rfl | h
      · exact le_trans (le_max_right x a) (le_foldl_max ys (max x a))
      · exact ih (max x y) h

theorem getElem_le_listMaxInt (l : List ℤ) (i : ℕ) (hi : i < l.length) :
    l[i] ≤ listMaxInt l := by
  cases l with
  | nil => simp at hi
  | cons x xs =>
      unfold listMaxInt
      cases i with
      | zero => exact le_foldl_max xs x
      | succ n =>
          exact mem_le_foldl_max xs x _
            (List.getElem_mem (by simpa using hi))

theorem lookupIndex_unsupported (indexer : ℕ → Option ℤ) (c : Char)
    (h : unsupportedAt indexer c = true) : lookupIndex indexer c = 0 := by
  unfold unsupportedAt at h
  unfold lookupIndex
  cases hx : indexer c.toNat with
  | none => rfl
  | some v =>
      rw [hx] at h
      have : v = -1 := by simpa using h
      simp [this]

theorem mem_foldl_dedup (l acc : List Char) (x : Char) :
    x ∈ l.foldl
      (fun acc c => if acc.contains c then acc else acc ++ [c]) acc ↔
    x ∈ acc ∨ x ∈ l := by
  induction l generalizing acc with
  | nil => simp
  | cons c cs ih =>
      simp only [List.foldl_cons]
      rw [ih]
      by_cases hc : acc.contains c
      · rw [if_pos hc]
        constructor
        · intro h
          rcases h with h | h
          · exact Or.inl h
          · exact Or.inr (List.mem_cons_of_mem c h)
        · intro h
          rcases h with h | h
          · exact Or.inl h
          · rcases List.mem_cons.mp h with rfl | h2
            · exact Or.inl (by simpa using hc)
            · exact Or.inr h2
      · rw [if_neg hc]
        constructor
        · intro h
          rcases h with h | h
          · rcases List.mem_append.mp h with h2 | h2
            · exact Or.inl h2
            · exact Or.inr (List.mem_cons.mpr (Or.inl (by simpa using h2)))
          · exact Or.inr (List.mem_cons_of_mem c h)
        · intro h
          rcases h with h | h
          · exact Or.inl (List.mem_append.mpr (Or.inl h))
          · rcases List.mem_cons.mp h with rfl | h2
            · exact Or.inl (List.mem_append.mpr (Or.inr (by simp)))
            · exact Or.inr h2

theorem mem_dedupKeepFirst (l : List Char) (x : Char) :
    x ∈ dedupKeepFirst l ↔ x ∈ l := by
  unfold dedupKeepFirst
  rw [mem_foldl_dedup]
  simp

/-- C8 (amended): a speak request whose text sanitizes to nothing completes
normally — a completion message is posted, never an error — without
invoking synthesis; unsupported characters are reported only as non-fatal
diagnostics (the reserved 0 code is emitted in their position and the
character is collected into the diagnostic set, while the call still
returns its full result); and a processed text never encodes to zero
length (preprocessing appends terminal punctuation and language tags). -/
theorem speak_empty_and_unsupported_diagnostics
    (text : List Char) (indexer : ℕ → Option ℤ) (nfkd : List Char → List Char)
    (textList : List (List Char)) (lang : Option (List Char)) (i j : ℕ)
    (hi : i < textList.length)
    (hj : j < (preprocessText nfkd textList[i] lang).length)
    (hcu : unsupportedAt indexer (preprocessText nfkd textList[i] lang)[j] = true)
    (hempty : sanitizeSpeakText text = []) :
    handleSpeak text = [SpeakEvent.postComplete] ∧
    SpeakEvent.postError ∉ handleSpeak text ∧
    ((processorCall indexer nfkd textList lang).textIds.getD i []).getD j 0 = 0 ∧
    (preprocessText nfkd textList[i] lang)[j] ∈
      (processorCall indexer nfkd textList lang).unsupportedChars ∧
    0 < (preprocessText nfkd textList[i] lang).length := by
  have hspeak : handleSpeak text = [SpeakEvent.postComplete] := by
    unfold handleSpeak
    simp [hempty]
  have hiP : i < (textList.map fun t => preprocessText nfkd t lang).length := by
    simpa using hi
  have hPi : (textList.map fun t => preprocessText nfkd t lang)[i] =
      preprocessText nfkd textList[i] lang := by
    simp
  have hmax : (j : ℤ) <
      listMaxInt (((textList.map fun t => preprocessText nfkd t lang).map
        List.length).map Int.ofNat) := by
    have hj2 : (j : ℤ) < Int.ofNat (preprocessText nfkd textList[i] lang).length := by
      rw [Int.ofNat_eq_natCast]
      exact_mod_cast hj
    have hi4 : i < (((textList.map fun t => preprocessText nfkd t lang).map
        List.length).map Int.ofNat).length := by
      simpa using hi
    have hentry : (((textList.map fun t => preprocessText nfkd t lang).map
        List.length).map Int.ofNat)[i] =
        Int.ofNat (preprocessText nfkd textList[i] lang).length := by
      simp
    calc (j : ℤ) < Int.ofNat (preprocessText nfkd textList[i] lang).length := hj2
      _ = _ := hentry.symm
      _ ≤ _ := getElem_le_listMaxInt _ i (by simpa using hi)
  have hjmax : j < (listMaxInt (((textList.map fun t =>
      preprocessText nfkd t lang).map List.length).map Int.ofNat)).toNat :=
    Int.lt_toNat.mpr hmax
  have hids : ((processorCall indexer nfkd textList lang).textIds.getD i
      []).getD j 0 = 0 := by
    unfold processorCall
    rw [getD_map_lt _ _ i [] hiP]
    rw [getD_range_map_lt _ _ _ _ hjmax]
    rw [hPi]
    rw [List.getElem?_eq_getElem hj]
    exact lookupIndex_unsupported indexer _ hcu
  have hmem : (preprocessText nfkd textList[i] lang)[j] ∈
      (processorCall indexer nfkd textList lang).unsupportedChars := by
    unfold processorCall
    rw [mem_dedupKeepFirst]
    rw [List.mem_flatten]
    refine ⟨(preprocessText nfkd textList[i] lang).filter
      (unsupportedAt indexer), ?_, ?_⟩
    · have : (preprocessText nfkd textList[i] lang) ∈
          (textList.map fun t => preprocessText nfkd t lang) := by
        rw [← hPi]
        exact List.getElem_mem hiP
      exact List.mem_map_of_mem _ this
    · exact List.mem_filter.mpr ⟨List.getElem_mem hj, hcu⟩
  have hpos : 0 < (preprocessText nfkd textList[i] lang).length := by
    unfold preprocessText
    cases lang <;> simp
  exact ⟨hspeak, by rw [hspeak]; simp, hids, hmem, hpos⟩

/-- Witness for C8 (amended) at text "<think>x</think>", batch ["a"], an
indexer that rejects everything. -/
theorem speak_empty_and_unsupported_diagnostics_witness :
    handleSpeak "<think>x</think>".toList = [SpeakEvent.postComplete] ∧
    SpeakEvent.postError ∉ handleSpeak "<think>x</think>".toList ∧
    ((processorCall (fun _ => none) id ["a".toList]
      (some "en".toList)).textIds.getD 0 []).getD 0 0 = 0 ∧
    (preprocessText id ("a".toList) (some "en".toList)).get ⟨0, by decide⟩ ∈
      (processorCall (fun _ => none) id ["a".toList]
        (some "en".toList)).unsupportedChars ∧
    0 < (preprocessText id ("a".toList) (some "en".toList)).length :=
  speak_empty_and_unsupported_diagnostics "<think>x</think>".toList
    (fun _ => none) id ["a".toList] (some "en".toList) 0 0
    (by decide) (by decide) (by decide)
    (by
      unfold sanitizeSpeakText
      rw [@removeThink_step "<think>x</think>".toList [] "x</think>".toList
        "x".toList [] (by decide) (by decide)]
      rw [removeThink_of_open_none (by decide)]
      decide)

/-- Counterexample to C8 as stated: the empty input normalizes to nothing,
and the claim requires the call to fail with an error result; the code
instead posts a normal completion ("No speakable text after filtering")
and no error. -/
theorem speak_empty_counterexample :
    handleSpeak "".toList = [SpeakEvent.postComplete] ∧
    SpeakEvent.postError ∉ handleSpeak "".toList := by
  have hempty : sanitizeSpeakText ([] : List Char) = [] := by
    unfold sanitizeSpeakText
    rw [removeThink_of_open_none (by decide)]
    decide
  have hspeak : handleSpeak "".toList = [SpeakEvent.postComplete] := by
    unfold handleSpeak
    simp [hempty]
  exact ⟨hspeak, by rw [hspeak]; simp⟩

end Morti
